import Mathlib

/-!
Shallow embedding of `src/llama32/train.py`, a linear LoRA fine-tuning
script.  The script itself contains only straight-line code: it loads a
tokenizer and a base model, builds a `LoraConfig`, wraps the model with
`get_peft_model`, loads a JSON-lines dataset, tokenizes it with
`dataset.map(tokenize, batched=True)`, builds `TrainingArguments`, runs
`Trainer.train()` and finally saves the adapter weights with
`model.save_pretrained("./adapter_model")`.

Definitions that translate lines of `train.py` are commented with the
line they embed.  The external collaborators (the datasets `map`
combinator, the Hugging Face tokenizer call, adapter injection and the
trainer loop) are not part of the repository; their contracts are
modelled from the specification (`spec.md` sections 4.1-4.5), and each
such definition carries a doc comment starting `Modelled from the
spec:`.
-/

namespace Llama32

/-- Errors surfaced by the delegated library calls.  `keyError` embeds a
Python `KeyError` raised by `batch["field"]`; the remaining kinds are the
failure categories named by the spec (sections 4.1-4.5 and section 7). -/
inductive PyError where
  | keyError (field : String)
  | valueError
  | authenticationError
  | notFoundError
  | configurationError
  | ioError
  deriving Repr, DecidableEq

/-- One JSON-lines record: an association list from field names to string
values, as produced by one line of `dataset.jsonl` (spec section 6: each
record is a JSON object with string fields). -/
structure Record where
  fields : List (String × String)
  deriving Repr, DecidableEq

/-- Field access on a record; `none` means the field is absent. -/
def Record.getField (r : Record) (k : String) : Option String :=
  r.fields.lookup k

/-- A batch in the columnar form handed to the function passed to
`dataset.map(..., batched=True)`: each column name maps to the list of
that column's values for the records of the batch.  An entry `none`
stands for a JSON null, which the datasets library substitutes for a
field missing from a record when other records of the file do have it. -/
structure Batch where
  cols : List (String × List (Option String))
  deriving Repr, DecidableEq

/-- Column access `batch["name"]`; `none` embeds a raised `KeyError`. -/
def Batch.get (b : Batch) (k : String) : Option (List (Option String)) :=
  b.cols.lookup k

/-- The loaded tokenizer, a black box of the embedding: `encode trunc s`
is the token-id sequence for text `s` with truncation flag `trunc`. -/
structure Tokenizer where
  encode : Bool → String → List Nat

/-- The columnar result of one batched tokenizer call: input token ids
from the positional text argument and label token ids from
`text_target`. -/
structure BatchEncoding where
  input_ids : List (List Nat)
  labels : List (List Nat)
  deriving Repr, DecidableEq

/-- Modelled from the spec: encoding one column of texts.  The tokenizer
maps each text of the batch to one token-id sequence; a `none` entry (a
null standing for a missing required field) is not a string, so the call
fails rather than silently producing an empty example (spec sections 4.3
and 8). -/
def encodeColumn (tk : Tokenizer) (trunc : Bool) :
    List (Option String) → Except PyError (List (List Nat))
  | [] => .ok []
  | none :: _ => .error .valueError
  | some s :: rest => (encodeColumn tk trunc rest).map (tk.encode trunc s :: ·)

/-- Modelled from the spec: the call
`tokenizer(texts, text_target=targets, truncation=trunc)` — the batch texts
become `input_ids` and the target texts become `labels`, both encoded
with the same truncation flag (spec section 4.3). -/
def Tokenizer.call (tk : Tokenizer) (texts targets : List (Option String))
    (trunc : Bool) : Except PyError BatchEncoding := do
  let ids ← encodeColumn tk trunc texts
  let lbls ← encodeColumn tk trunc targets
  .ok ⟨ids, lbls⟩

/-- Embeds `train.py` lines 29-30:
`def tokenize(batch): return tokenizer(batch["instruction"],
text_target=batch["response"], truncation=True)`.
The subscripts are evaluated left to right and raise `KeyError` on a
missing column; the tokenizer is then applied with the `instruction`
column as input texts, the `response` column as target texts and
truncation enabled. -/
def tokenize (tk : Tokenizer) (batch : Batch) : Except PyError BatchEncoding :=
  match batch.get "instruction" with
  | none => .error (.keyError "instruction")
  | some texts =>
    match batch.get "response" with
    | none => .error (.keyError "response")
    | some targets => tk.call texts targets true

/-- Splitting a list into consecutive chunks of size `n + 1` (fuel-based
so that it computes by structural recursion; `chunkList` instantiates the
fuel with the list length, which always suffices). -/
def chunkListAux (n : Nat) : Nat → List α → List (List α)
  | _, [] => []
  | 0, l => [l]
  | fuel + 1, x :: xs => (x :: xs.take n) :: chunkListAux n fuel (xs.drop n)

/-- The batch groups of a dataset: consecutive chunks of size `n + 1`. -/
def chunkList (n : Nat) (l : List α) : List (List α) :=
  chunkListAux n l.length l

/-- Effectful map over a list in the `Except` monad, processing elements
left to right and stopping at the first error. -/
def exceptMapM (f : α → Except ε β) : List α → Except ε (List β)
  | [] => .ok []
  | x :: xs => do
    let y ← f x
    let ys ← exceptMapM f xs
    .ok (y :: ys)

/-- The column names of a loaded dataset: every field name occurring in
some record (the datasets library unifies the per-record keys into one
schema; records lacking a column get a null entry). -/
def datasetColumns (rows : List Record) : List String :=
  (rows.map (fun r => r.fields.map Prod.fst)).flatten

/-- The columnar view of a chunk of records, over a given column set. -/
def toBatch (cols : List String) (chunk : List Record) : Batch :=
  ⟨cols.map (fun c => (c, chunk.map (fun r => r.getField c)))⟩

/-- One tokenized example of the mapped dataset: token-id sequences only,
the source texts having been discarded (spec section 3: consumed once,
converted into token-id sequences, then discarded). -/
structure TokenizedExample where
  input_ids : List Nat
  labels : List Nat
  deriving Repr, DecidableEq

/-- The rows of a batched tokenizer output, pairing each input-id
sequence with the label sequence at the same position. -/
def encodingRows (e : BatchEncoding) : List TokenizedExample :=
  List.zipWith (fun i l => ⟨i, l⟩) e.input_ids e.labels

/-- The tokenized form of one record: its `instruction` text encoded as
input ids and its `response` text encoded as labels, both with
truncation enabled.  (The `getD ""` defaults are never exercised on
records that have both fields.) -/
def tokenizedForm (tk : Tokenizer) (r : Record) : TokenizedExample :=
  ⟨tk.encode true ((r.getField "instruction").getD ""),
   tk.encode true ((r.getField "response").getD "")⟩

/-- Modelled from the spec: `dataset.map(tokenize, batched=True)` (line
33 of `train.py`).  The rows are split into consecutive batch groups of
size `n + 1`, each group is passed in columnar form to `tokenize`, and
the resulting token-id rows replace the original records (spec section
4.3: a dataset object where every record has been replaced by its
tokenized form, applied in batch groups).  Any failure of the mapped
function aborts the whole map. -/
def mapBatched (tk : Tokenizer) (n : Nat) (rows : List Record) :
    Except PyError (List TokenizedExample) := do
  let encs ← exceptMapM (fun chunk => tokenize tk (toBatch (datasetColumns rows) chunk))
      (chunkList n rows)
  .ok (encs.map encodingRows).flatten

/-- Embeds `train.py` line 8: the base model identifier. -/
def model_name : String := "meta-llama/Llama-3.2-3B"

/-- The adapter configuration record: rank, scaling factor, target layer
name set, dropout probability, bias-handling mode and task type.  The
dropout probability is a rational value, embedding the decimal literal
of the script. -/
structure LoraConfig where
  r : Nat
  lora_alpha : Nat
  target_modules : List String
  lora_dropout : ℚ
  bias : String
  task_type : String
  deriving Repr, DecidableEq

/-- Embeds `train.py` lines 13-20: `LoraConfig(r=16, lora_alpha=32,
target_modules=["q_proj", "v_proj"], lora_dropout=0.05, bias="none",
task_type="CAUSAL_LM")`, the one adapter configuration the script
constructs. -/
def lora_config : LoraConfig :=
  ⟨16, 32, ["q_proj", "v_proj"], 0.05, "none", "CAUSAL_LM"⟩

/-- The loaded base model, abstracted to what the claims need: the set
of layer names adapter targets are matched against, and the number of
base parameters. -/
structure Model where
  layers : List String
  baseParamCount : Nat
  deriving Repr, DecidableEq

/-- The adapted model produced by adapter injection: the base model, the
configuration it was built from, the count of injected adapter
parameters, whether the base weights are trainable, and an abstract
version counter for the adapter weights that training bumps. -/
structure PeftModel where
  base : Model
  config : LoraConfig
  adapterParamCount : Nat
  baseTrainable : Bool
  adapterVersion : Nat
  deriving Repr, DecidableEq

/-- Modelled from the spec: the number of adapter parameters injected —
two rank-`r` matrices per targeted layer (the hidden dimensions are
abstracted to 1; only positivity and separation from the base count
matter to the claims). -/
def adapterParamsFor (cfg : LoraConfig) : Nat :=
  2 * cfg.r * cfg.target_modules.length

/-- Trainable parameters of the adapted model: the adapter parameters,
plus the base parameters only if they are (contrary to injection's
postcondition) marked trainable. -/
def PeftModel.trainableParams (p : PeftModel) : Nat :=
  (if p.baseTrainable then p.base.baseParamCount else 0) + p.adapterParamCount

/-- Total parameters of the adapted model. -/
def PeftModel.totalParams (p : PeftModel) : Nat :=
  p.base.baseParamCount + p.adapterParamCount

/-- Modelled from the spec: adapter injection (`get_peft_model(model,
lora_config)`, line 22 of `train.py`).  Fails with a configuration error
if a target layer name does not exist in the model's layer set;
otherwise returns the base model wrapped with trainable low-rank
parameters on the target layers, with every base parameter marked
non-trainable (spec section 4.2). -/
def get_peft_model (m : Model) (cfg : LoraConfig) : Except PyError PeftModel :=
  if cfg.target_modules.all (fun t => m.layers.contains t) then
    .ok ⟨m, cfg, adapterParamsFor cfg, false, 0⟩
  else
    .error .configurationError

/-- Modelled from the spec: the effect of `steps` optimizer steps on the
adapted model — only the adapter weights change (abstracted as the
version counter); parameter counts, the frozen/trainable marking and the
configuration are untouched (spec sections 3 and 4.4). -/
def trainedModel (p : PeftModel) (steps : Nat) : PeftModel :=
  ⟨p.base, p.config, p.adapterParamCount, p.baseTrainable, p.adapterVersion + steps⟩

/-- The training configuration record; the learning rate is a rational
value embedding the script's decimal literal. -/
structure TrainingArguments where
  output_dir : String
  per_device_train_batch_size : Nat
  num_train_epochs : Nat
  learning_rate : ℚ
  fp16 : Bool
  logging_steps : Nat
  save_steps : Nat
  deriving Repr, DecidableEq

/-- Embeds `train.py` lines 36-44: `TrainingArguments(
output_dir="./results", per_device_train_batch_size=2,
num_train_epochs=3, learning_rate=2e-4, fp16=True, logging_steps=10,
save_steps=500)`. -/
def training_args : TrainingArguments :=
  ⟨"./results", 2, 3, 2e-4, true, 10, 500⟩

/-- The mini-batches of one epoch over the training split: consecutive
groups of `b` examples (the final group may be smaller). -/
def epochBatches (b : Nat) (data : List TokenizedExample) :
    List (List TokenizedExample) :=
  chunkList (b - 1) data

/-- Optimization steps of one epoch: one step per mini-batch. -/
def stepsPerEpoch (b : Nat) (data : List TokenizedExample) : Nat :=
  (epochBatches b data).length

/-- Total optimization steps of a training run: one full pass per epoch. -/
def totalSteps (epochs b : Nat) (data : List TokenizedExample) : Nat :=
  epochs * stepsPerEpoch b data

/-- Modelled from the spec: the training loop runner (`trainer.train()`,
lines 47-53 of `train.py`).  Unless a delegated failure (out of memory,
divergence, interruption) aborts it, it performs one full pass per epoch
over the tokenized split in mini-batches of the configured size,
updating only the adapter parameters, and reports the model after
`totalSteps` optimization steps (spec section 4.4). -/
def runTrainer (p : PeftModel) (args : TrainingArguments)
    (data : List TokenizedExample) (failure : Option PyError) :
    Except PyError (PeftModel × Nat) :=
  match failure with
  | some e => .error e
  | none =>
    let steps := totalSteps args.num_train_epochs args.per_device_train_batch_size data
    .ok (trainedModel p steps, steps)

/-- The persisted artifact: the destination directory, the adapter-only
parameter subset (count and version — the frozen base weights are not
written), and the adapter configuration metadata needed to reload. -/
structure SavedArtifact where
  dir : String
  adapterParamCount : Nat
  adapterVersion : Nat
  config : LoraConfig
  deriving Repr, DecidableEq

/-- Modelled from the spec: `model.save_pretrained("./adapter_model")`
(line 56 of `train.py`) — writes the adapter-only weights and the
adapter configuration to the destination directory, failing with an IO
error on an unwritable destination (spec section 4.5). -/
def save_pretrained (p : PeftModel) (dir : String) (failure : Option PyError) :
    Except PyError SavedArtifact :=
  match failure with
  | some e => .error e
  | none => .ok ⟨dir, p.adapterParamCount, p.adapterVersion, p.config⟩

/-- The environment of one run: the outcomes of the delegated calls the
script cannot influence — hub fetches, the dataset file contents, and
whether training or saving is aborted by an external failure. -/
structure Env where
  fetchTokenizer : Except PyError Tokenizer
  fetchModel : Except PyError Model
  loadRows : Except PyError (List Record)
  trainFailure : Option PyError
  saveFailure : Option PyError

/-- The pipeline stages of `train.py`, in source order. -/
inductive Stage where
  | loadTokenizer
  | loadModel
  | injectAdapter
  | loadDataset
  | tokenizeData
  | configureTraining
  | runTraining
  | saveAdapter
  deriving Repr, DecidableEq

/-- The full linear stage sequence of the script. -/
def fullTrace : List Stage :=
  [.loadTokenizer, .loadModel, .injectAdapter, .loadDataset,
   .tokenizeData, .configureTraining, .runTraining, .saveAdapter]

/-- The observable outcome of one run: the stages completed in order,
and either the saved artifact or the first unhandled failure. -/
structure RunResult where
  trace : List Stage
  outcome : Except PyError SavedArtifact

/-- Embeds the whole of `train.py` as straight-line control flow: load
tokenizer and model (lines 9-10), inject the adapter with `lora_config`
(line 22), load the dataset (line 25), tokenize it in batch groups of
the library's default size 1000 (line 33), construct `training_args`
(lines 36-44), run the trainer (line 53), and save the adapter weights
to `./adapter_model` (line 56).  There is no branching beyond failure
propagation, no retry and no author-written loop: each stage runs once,
and the first failure aborts the run. -/
def runPipeline (env : Env) : RunResult :=
  match env.fetchTokenizer with
  | .error e => ⟨[], .error e⟩
  | .ok tk =>
    match env.fetchModel with
    | .error e => ⟨[.loadTokenizer], .error e⟩
    | .ok m =>
      match get_peft_model m lora_config with
      | .error e => ⟨[.loadTokenizer, .loadModel], .error e⟩
      | .ok pm =>
        match env.loadRows with
        | .error e => ⟨[.loadTokenizer, .loadModel, .injectAdapter], .error e⟩
        | .ok rows =>
          match mapBatched tk 999 rows with
          | .error e =>
            ⟨[.loadTokenizer, .loadModel, .injectAdapter, .loadDataset], .error e⟩
          | .ok tokenized =>
            match runTrainer pm training_args tokenized env.trainFailure with
            | .error e =>
              ⟨[.loadTokenizer, .loadModel, .injectAdapter, .loadDataset,
                .tokenizeData, .configureTraining], .error e⟩
            | .ok (pm', _) =>
              match save_pretrained pm' "./adapter_model" env.saveFailure with
              | .error e =>
                ⟨[.loadTokenizer, .loadModel, .injectAdapter, .loadDataset,
                  .tokenizeData, .configureTraining, .runTraining], .error e⟩
              | .ok art => ⟨fullTrace, .ok art⟩

/-! ### Concrete fixtures used to evaluate the development -/

/-- A concrete tokenizer: the encoding records the text length and the
truncation flag, so distinct texts and flags give distinct encodings. -/
def tkW : Tokenizer := ⟨fun trunc s => [s.length, if trunc then 1 else 0]⟩

/-- A concrete well-formed record. -/
def recW1 : Record := ⟨[("instruction", "add 2 and 3"), ("response", "5")]⟩

/-- A concrete well-formed record. -/
def recW2 : Record := ⟨[("instruction", "name a color"), ("response", "blue")]⟩

/-- A concrete well-formed record carrying an extra field. -/
def recW3 : Record := ⟨[("instruction", "greet"), ("response", "hello"), ("id", "3")]⟩

/-- A concrete well-formed record. -/
def recW4 : Record := ⟨[("instruction", "stop"), ("response", "done")]⟩

/-- A concrete four-record dataset whose records all have both fields. -/
def rowsW : List Record := [recW1, recW2, recW3, recW4]

/-- A concrete dataset whose second record lacks the `response` field. -/
def rowsBad : List Record := [recW1, ⟨[("instruction", "orphan")]⟩]

/-- A concrete base model whose layer set contains both adapter targets. -/
def mW : Model := ⟨["q_proj", "k_proj", "v_proj"], 100⟩

/-- The adapted model obtained by injecting `lora_config` into `mW`. -/
def pmW : PeftModel := ⟨mW, lora_config, adapterParamsFor lora_config, false, 0⟩

/-- A concrete tokenized split of four examples. -/
def dataW : List TokenizedExample := [⟨[1], [2]⟩, ⟨[3], [4]⟩, ⟨[5], [6]⟩, ⟨[7], [8]⟩]

/-- An environment in which every delegated call succeeds. -/
def envW : Env := ⟨.ok tkW, .ok mW, .ok rowsW, none, none⟩

/-- An environment whose dataset contains a record missing `response`. -/
def envBad : Env := ⟨.ok tkW, .ok mW, .ok rowsBad, none, none⟩

/-- A concrete batch with both required columns. -/
def batchW : Batch := ⟨[("instruction", [some "add 2 and 3"]), ("response", [some "5"])]⟩

/-- A concrete batch with both required columns and an `id` column. -/
def batchX : Batch :=
  ⟨[("instruction", [some "greet"]), ("response", [some "hello"]), ("id", [some "1"])]⟩

/-- The same batch as `batchX` except for the `id` column. -/
def batchY : Batch :=
  ⟨[("instruction", [some "greet"]), ("response", [some "hello"]), ("id", [some "2"])]⟩

/-! ### Helper lemmas about the combinators -/

theorem exceptBind_ok (a : α) (f : α → Except ε β) :
    (Except.ok a : Except ε α) >>= f = f a := rfl

theorem exceptBind_error (e : ε) (f : α → Except ε β) :
    (Except.error e : Except ε α) >>= f = Except.error e := rfl

theorem exceptMap_ok (f : α → β) (a : α) :
    Except.map f (Except.ok a : Except ε α) = Except.ok (f a) := rfl

theorem exceptMap_error (f : α → β) (e : ε) :
    Except.map f (Except.error e : Except ε α) = Except.error e := rfl

theorem chunkListAux_flatten (n : Nat) :
    ∀ (fuel : Nat) (l : List α), l.length ≤ fuel →
      (chunkListAux n fuel l).flatten = l := by
  intro fuel
  induction fuel with
  | zero =>
    intro l hl
    cases l with
    | nil => rfl
    | cons x xs => simp at hl
  | succ fuel ih =>
    intro l hl
    cases l with
    | nil => rfl
    | cons x xs =>
      simp only [chunkListAux, List.flatten_cons]
      rw [ih (xs.drop n) (by simp only [List.length_drop, List.length_cons] at hl ⊢; omega)]
      simp [List.take_append_drop]

theorem chunkList_flatten (n : Nat) (l : List α) :
    (chunkList n l).flatten = l :=
  chunkListAux_flatten n l.length l le_rfl

theorem chunkListAux_length (n : Nat) :
    ∀ (fuel : Nat) (l : List α), l.length ≤ fuel →
      (chunkListAux n fuel l).length = (l.length + n) / (n + 1) := by
  intro fuel
  induction fuel with
  | zero =>
    intro l hl
    cases l with
    | nil => simp [chunkListAux, Nat.div_eq_of_lt (Nat.lt_succ_self n)]
    | cons x xs => simp at hl
  | succ fuel ih =>
    intro l hl
    cases l with
    | nil => simp [chunkListAux, Nat.div_eq_of_lt (Nat.lt_succ_self n)]
    | cons x xs =>
      simp only [chunkListAux, List.length_cons]
      rw [ih (xs.drop n) (by simp only [List.length_drop, List.length_cons] at hl ⊢; omega)]
      simp only [List.length_drop]
      have hxs : xs.length + 1 + n = xs.length + (n + 1) := by omega
      rw [hxs, Nat.add_div_right _ (Nat.succ_pos n)]
      rcases Nat.le_total n xs.length with h | h
      · have : xs.length - n + n = xs.length := by omega
        rw [this, Nat.add_comm]
      · have h1 : xs.length - n = 0 := by omega
        rw [h1, Nat.zero_add,
          Nat.div_eq_of_lt (by omega : n < n + 1),
          Nat.div_eq_of_lt (by omega : xs.length < n + 1)]

theorem chunkList_length (n : Nat) (l : List α) :
    (chunkList n l).length = (l.length + n) / (n + 1) :=
  chunkListAux_length n l.length l le_rfl

theorem chunkListAux_mem_le (n : Nat) :
    ∀ (fuel : Nat) (l : List α), l.length ≤ fuel →
      ∀ c ∈ chunkListAux n fuel l, c.length ≤ n + 1 := by
  intro fuel
  induction fuel with
  | zero =>
    intro l hl c hc
    cases l with
    | nil => simp [chunkListAux] at hc
    | cons x xs => simp at hl
  | succ fuel ih =>
    intro l hl c hc
    cases l with
    | nil => simp [chunkListAux] at hc
    | cons x xs =>
      simp only [chunkListAux, List.mem_cons] at hc
      rcases hc with hc | hc
      · subst hc
        simp only [List.length_cons]
        have := List.length_take_le n xs
        omega
      · exact ih (xs.drop n) (by simp only [List.length_drop, List.length_cons] at hl ⊢; omega) c hc

theorem chunkList_mem_le (n : Nat) (l : List α) :
    ∀ c ∈ chunkList n l, c.length ≤ n + 1 :=
  chunkListAux_mem_le n l.length l le_rfl

theorem chunkList_mem_mem (n : Nat) (l : List α) {c : List α} {x : α}
    (hc : c ∈ chunkList n l) (hx : x ∈ c) : x ∈ l := by
  have : x ∈ (chunkList n l).flatten := List.mem_flatten.mpr ⟨c, hc, hx⟩
  rwa [chunkList_flatten] at this

theorem exceptMapM_congr_ok {f : α → Except ε β} {g : α → β} :
    ∀ {l : List α}, (∀ x ∈ l, f x = .ok (g x)) →
      exceptMapM f l = .ok (l.map g) := by
  intro l
  induction l with
  | nil => intro _; rfl
  | cons x xs ih =>
    intro h
    have hx : f x = .ok (g x) := h x (List.mem_cons_self x xs)
    have hxs : exceptMapM f xs = .ok (xs.map g) :=
      ih (fun y hy => h y (List.mem_cons_of_mem x hy))
    simp only [exceptMapM, hx, hxs, exceptBind_ok, List.map_cons]

theorem exceptMapM_ok_mem {f : α → Except ε β} :
    ∀ {l : List α} {out : List β}, exceptMapM f l = .ok out →
      ∀ x ∈ l, ∃ y, f x = .ok y := by
  intro l
  induction l with
  | nil => intro out _ x hx; simp at hx
  | cons z zs ih =>
    intro out h x hx
    rcases hfz : f z with e | y
    · simp [exceptMapM, hfz, exceptBind_error] at h
    · rcases hrest : exceptMapM f zs with e | ys
      · simp [exceptMapM, hfz, hrest, exceptBind_ok, exceptBind_error] at h
      · rcases List.mem_cons.mp hx with hx | hx
        · exact ⟨y, hx ▸ hfz⟩
        · exact ih hrest x hx

theorem encodeColumn_ok_of_isSome (tk : Tokenizer) (b : Bool) :
    ∀ {col : List (Option String)}, (∀ x ∈ col, x.isSome) →
      encodeColumn tk b col = .ok (col.map (fun x => tk.encode b (x.getD ""))) := by
  intro col
  induction col with
  | nil => intro _; rfl
  | cons x xs ih =>
    intro h
    cases x with
    | none =>
      have := h none (List.mem_cons_self _ _)
      simp at this
    | some s =>
      have hxs := ih (fun y hy => h y (List.mem_cons_of_mem _ hy))
      simp [encodeColumn, hxs, exceptMap_ok]

theorem encodeColumn_isSome_of_ok (tk : Tokenizer) (b : Bool) :
    ∀ {col : List (Option String)} {out : List (List Nat)},
      encodeColumn tk b col = .ok out → ∀ x ∈ col, x.isSome := by
  intro col
  induction col with
  | nil => intro out _ x hx; simp at hx
  | cons z zs ih =>
    intro out h x hx
    cases z with
    | none => simp [encodeColumn] at h
    | some s =>
      rcases List.mem_cons.mp hx with hx | hx
      · subst hx; rfl
      · rcases hrest : encodeColumn tk b zs with e | ys
        · simp [encodeColumn, hrest, exceptMap_error] at h
        · exact ih hrest x hx

/-! ### Lemmas about batches and the tokenization transform -/

theorem lookup_map_pair_eq {β : Type} {g : String → β} :
    ∀ {cols : List String} {k : String} {v : β},
      (cols.map (fun c => (c, g c))).lookup k = some v → v = g k := by
  intro cols
  induction cols with
  | nil => intro k v h; simp [List.lookup] at h
  | cons c cs ih =>
    intro k v h
    simp only [List.map_cons, List.lookup] at h
    rcases hk : (k == c) with _ | _
    · rw [hk] at h
      exact ih h
    · rw [hk] at h
      have hkc : k = c := eq_of_beq hk
      subst hkc
      exact (Option.some.inj h).symm

theorem lookup_map_pair_mem {β : Type} {g : String → β} :
    ∀ {cols : List String} {k : String}, k ∈ cols →
      (cols.map (fun c => (c, g c))).lookup k = some (g k) := by
  intro cols
  induction cols with
  | nil => intro k hk; simp at hk
  | cons c cs ih =>
    intro k hk
    simp only [List.map_cons, List.lookup]
    by_cases hkc : k = c
    · subst hkc; simp
    · have hbeq : (k == c) = false := beq_false_of_ne hkc
      rw [hbeq]
      exact ih (List.mem_of_ne_of_mem hkc hk)

theorem toBatch_get_mem {cols : List String} (chunk : List Record) {k : String}
    (hk : k ∈ cols) :
    (toBatch cols chunk).get k = some (chunk.map (fun r => r.getField k)) := by
  simp only [toBatch, Batch.get]
  exact lookup_map_pair_mem hk

theorem toBatch_get_eq {cols : List String} {chunk : List Record} {k : String}
    {col : List (Option String)}
    (h : (toBatch cols chunk).get k = some col) :
    col = chunk.map (fun r => r.getField k) := by
  simp only [toBatch, Batch.get] at h
  exact lookup_map_pair_eq h

theorem getField_isSome_key_mem {r : Record} {k : String}
    (h : (r.getField k).isSome) : k ∈ r.fields.map Prod.fst := by
  rcases r with ⟨fs⟩
  simp only [Record.getField] at h
  induction fs with
  | nil => simp [List.lookup] at h
  | cons p ps ih =>
    rcases p with ⟨a, b⟩
    simp only [List.lookup] at h
    rcases hk : (k == a) with _ | _
    · rw [hk] at h
      simpa using Or.inr (ih h)
    · have : k = a := eq_of_beq hk
      subst this
      simp

theorem encodingRows_map {α : Type} (l : List α) (f g : α → List Nat) :
    encodingRows ⟨l.map f, l.map g⟩ = l.map (fun x => ⟨f x, g x⟩) := by
  induction l with
  | nil => rfl
  | cons x xs ih =>
    simp only [List.map_cons, encodingRows, List.zipWith_cons_cons] at ih ⊢
    rw [ih]

theorem tokenize_toBatch_ok (tk : Tokenizer) {cols : List String} {chunk : List Record}
    (hi : "instruction" ∈ cols) (hr : "response" ∈ cols)
    (hall : ∀ r ∈ chunk,
      (r.getField "instruction").isSome ∧ (r.getField "response").isSome) :
    tokenize tk (toBatch cols chunk) =
      .ok ⟨chunk.map (fun r => tk.encode true ((r.getField "instruction").getD "")),
           chunk.map (fun r => tk.encode true ((r.getField "response").getD ""))⟩ := by
  have hgi := toBatch_get_mem chunk hi
  have hgr := toBatch_get_mem chunk hr
  have ei : encodeColumn tk true (chunk.map (fun r => r.getField "instruction")) =
      .ok (chunk.map (fun r => tk.encode true ((r.getField "instruction").getD ""))) := by
    rw [encodeColumn_ok_of_isSome tk true
      (fun x hx => by
        rcases List.mem_map.mp hx with ⟨r, hrmem, hrx⟩
        exact hrx ▸ (hall r hrmem).1)]
    rw [List.map_map]
    rfl
  have er : encodeColumn tk true (chunk.map (fun r => r.getField "response")) =
      .ok (chunk.map (fun r => tk.encode true ((r.getField "response").getD ""))) := by
    rw [encodeColumn_ok_of_isSome tk true
      (fun x hx => by
        rcases List.mem_map.mp hx with ⟨r, hrmem, hrx⟩
        exact hrx ▸ (hall r hrmem).2)]
    rw [List.map_map]
    rfl
  simp only [tokenize, hgi, hgr, Tokenizer.call, ei, er, exceptBind_ok]

theorem tokenize_ok_fields {tk : Tokenizer} {cols : List String} {chunk : List Record}
    {e : BatchEncoding}
    (h : tokenize tk (toBatch cols chunk) = .ok e) :
    ∀ r ∈ chunk, (r.getField "instruction").isSome ∧ (r.getField "response").isSome := by
  intro r hrmem
  rcases hgi : (toBatch cols chunk).get "instruction" with _ | texts
  · simp [tokenize, hgi] at h
  rcases hgr : (toBatch cols chunk).get "response" with _ | targets
  · simp [tokenize, hgi, hgr] at h
  simp only [tokenize, hgi, hgr] at h
  rcases hei : encodeColumn tk true texts with e1 | ids
  · simp [Tokenizer.call, hei, exceptBind_error] at h
  rcases her : encodeColumn tk true targets with e2 | lbls
  · simp [Tokenizer.call, hei, her, exceptBind_ok, exceptBind_error] at h
  have htexts := toBatch_get_eq hgi
  have htargets := toBatch_get_eq hgr
  subst htexts htargets
  constructor
  · exact encodeColumn_isSome_of_ok tk true hei _
      (List.mem_map_of_mem (fun r => r.getField "instruction") hrmem)
  · exact encodeColumn_isSome_of_ok tk true her _
      (List.mem_map_of_mem (fun r => r.getField "response") hrmem)

/-- On a dataset whose records all carry both required fields, the
batched map succeeds and replaces every record by its tokenized form. -/
theorem mapBatched_ok (tk : Tokenizer) (n : Nat) {rows : List Record}
    (hall : ∀ r ∈ rows,
      (r.getField "instruction").isSome ∧ (r.getField "response").isSome) :
    mapBatched tk n rows = .ok (rows.map (tokenizedForm tk)) := by
  cases rows with
  | nil => rfl
  | cons r0 rest =>
    have hi : "instruction" ∈ datasetColumns (r0 :: rest) := by
      refine List.mem_flatten.mpr ⟨r0.fields.map Prod.fst, ?_, ?_⟩
      · exact List.mem_map_of_mem _ (List.mem_cons_self r0 rest)
      · exact getField_isSome_key_mem (hall r0 (List.mem_cons_self r0 rest)).1
    have hr : "response" ∈ datasetColumns (r0 :: rest) := by
      refine List.mem_flatten.mpr ⟨r0.fields.map Prod.fst, ?_, ?_⟩
      · exact List.mem_map_of_mem _ (List.mem_cons_self r0 rest)
      · exact getField_isSome_key_mem (hall r0 (List.mem_cons_self r0 rest)).2
    have hchunk : ∀ c ∈ chunkList n (r0 :: rest),
        tokenize tk (toBatch (datasetColumns (r0 :: rest)) c) =
          .ok ⟨c.map (fun r => tk.encode true ((r.getField "instruction").getD "")),
               c.map (fun r => tk.encode true ((r.getField "response").getD ""))⟩ :=
      fun c hc => tokenize_toBatch_ok tk hi hr
        (fun r hrm => hall r (chunkList_mem_mem n _ hc hrm))
    have hmapm := exceptMapM_congr_ok hchunk
    simp only [mapBatched, hmapm, exceptBind_ok, List.map_map]
    have hrowfun : (encodingRows ∘ fun c : List Record =>
        (⟨c.map (fun r => tk.encode true ((r.getField "instruction").getD "")),
          c.map (fun r => tk.encode true ((r.getField "response").getD ""))⟩ :
          BatchEncoding)) = fun c => c.map (tokenizedForm tk) := by
      funext c
      exact encodingRows_map c _ _
    rw [hrowfun, ← List.map_flatten, chunkList_flatten]

/-- On a dataset containing a record that lacks `instruction` or
`response`, the batched map fails with an error. -/
theorem mapBatched_error_of_missing (tk : Tokenizer) (n : Nat) {rows : List Record}
    {r : Record} (hrmem : r ∈ rows)
    (hmiss : r.getField "instruction" = none ∨ r.getField "response" = none) :
    ∃ e, mapBatched tk n rows = .error e := by
  rcases hres : mapBatched tk n rows with e | out
  · exact ⟨e, rfl⟩
  exfalso
  have hm : ∃ encs,
      exceptMapM (fun c => tokenize tk (toBatch (datasetColumns rows) c))
        (chunkList n rows) = .ok encs := by
    rcases hmm : exceptMapM (fun c => tokenize tk (toBatch (datasetColumns rows) c))
        (chunkList n rows) with e | encs
    · simp [mapBatched, hmm, exceptBind_error] at hres
    · exact ⟨encs, rfl⟩
  rcases hm with ⟨encs, hmm⟩
  have hrf : r ∈ (chunkList n rows).flatten := by rw [chunkList_flatten]; exact hrmem
  rcases List.mem_flatten.mp hrf with ⟨c, hc, hrc⟩
  rcases exceptMapM_ok_mem hmm c hc with ⟨enc, henc⟩
  have hfields := tokenize_ok_fields henc r hrc
  rcases hmiss with h | h
  · rw [h] at hfields; simp at hfields
  · rw [h] at hfields; simp at hfields

/-! ### Lemmas about the adapted model and the pipeline -/

theorem get_peft_model_ok {m : Model} {cfg : LoraConfig} {p : PeftModel}
    (h : get_peft_model m cfg = .ok p) :
    p = ⟨m, cfg, adapterParamsFor cfg, false, 0⟩ := by
  unfold get_peft_model at h
  split at h
  · exact (Except.ok.inj h).symm
  · exact Except.noConfusion h

theorem runPipeline_shape (env : Env) :
    (∃ k, (runPipeline env).trace = fullTrace.take k) ∧
    ((∃ art, (runPipeline env).outcome = .ok art) ↔
      (runPipeline env).trace = fullTrace) ∧
    (∀ art, (runPipeline env).outcome = .ok art →
      art.dir = "./adapter_model" ∧ art.config = lora_config) ∧
    (∀ tk rows, env.fetchTokenizer = .ok tk → env.loadRows = .ok rows →
      (∃ art, (runPipeline env).outcome = .ok art) →
      ∃ out, mapBatched tk 999 rows = .ok out) := by
  rcases h1 : env.fetchTokenizer with e1 | tk
  · refine ⟨⟨0, by simp [runPipeline, h1]⟩, by simp [runPipeline, h1, fullTrace], ?_, ?_⟩
    · intro art h; simp [runPipeline, h1] at h
    · intro tk rows htk hrows hok
      exact Except.noConfusion htk
  rcases h2 : env.fetchModel with e2 | m
  · refine ⟨⟨1, by simp [runPipeline, h1, h2, fullTrace]⟩,
      by simp [runPipeline, h1, h2, fullTrace], ?_, ?_⟩
    · intro art h; simp [runPipeline, h1, h2] at h
    · intro tk' rows htk hrows hok
      exact absurd hok (by simp [runPipeline, h1, h2])
  rcases h3 : get_peft_model m lora_config with e3 | pm
  · refine ⟨⟨2, by simp [runPipeline, h1, h2, h3, fullTrace]⟩,
      by simp [runPipeline, h1, h2, h3, fullTrace], ?_, ?_⟩
    · intro art h; simp [runPipeline, h1, h2, h3] at h
    · intro tk' rows htk hrows hok
      exact absurd hok (by simp [runPipeline, h1, h2, h3])
  rcases h4 : env.loadRows with e4 | rows
  · refine ⟨⟨3, by simp [runPipeline, h1, h2, h3, h4, fullTrace]⟩,
      by simp [runPipeline, h1, h2, h3, h4, fullTrace], ?_, ?_⟩
    · intro art h; simp [runPipeline, h1, h2, h3, h4] at h
    · intro tk' rows' htk hrows hok
      exact Except.noConfusion hrows
  rcases h5 : mapBatched tk 999 rows with e5 | tokenized
  · refine ⟨⟨4, by simp [runPipeline, h1, h2, h3, h4, h5, fullTrace]⟩,
      by simp [runPipeline, h1, h2, h3, h4, h5, fullTrace], ?_, ?_⟩
    · intro art h; simp [runPipeline, h1, h2, h3, h4, h5] at h
    · intro tk' rows' htk hrows hok
      exact absurd hok (by simp [runPipeline, h1, h2, h3, h4, h5])
  rcases h6 : env.trainFailure with _ | e6
  · rcases h7 : env.saveFailure with _ | e7
    · refine ⟨⟨8, by simp [runPipeline, h1, h2, h3, h4, h5, runTrainer, h6,
        save_pretrained, h7, fullTrace]⟩,
        by simp [runPipeline, h1, h2, h3, h4, h5, runTrainer, h6,
          save_pretrained, h7, fullTrace], ?_, ?_⟩
      · intro art h
        simp only [runPipeline, h1, h2, h3, h4, h5, runTrainer, h6,
          save_pretrained, h7] at h
        have hart := (Except.ok.inj h).symm
        subst hart
        refine ⟨rfl, ?_⟩
        have hpm := get_peft_model_ok h3
        simp [hpm, trainedModel]
      · intro tk' rows' htk hrows hok
        injection htk with htk'
        injection hrows with hrows'
        subst htk' hrows'
        exact ⟨tokenized, h5⟩
    · refine ⟨⟨7, by simp [runPipeline, h1, h2, h3, h4, h5, runTrainer, h6,
        save_pretrained, h7, fullTrace]⟩,
        by simp [runPipeline, h1, h2, h3, h4, h5, runTrainer, h6,
          save_pretrained, h7, fullTrace], ?_, ?_⟩
      · intro art h
        simp [runPipeline, h1, h2, h3, h4, h5, runTrainer, h6,
          save_pretrained, h7] at h
      · intro tk' rows' htk hrows hok
        exact absurd hok (by simp [runPipeline, h1, h2, h3, h4, h5, runTrainer, h6,
          save_pretrained, h7])
  · refine ⟨⟨6, by simp [runPipeline, h1, h2, h3, h4, h5, runTrainer, h6, fullTrace]⟩,
      by simp [runPipeline, h1, h2, h3, h4, h5, runTrainer, h6, fullTrace], ?_, ?_⟩
    · intro art h
      simp [runPipeline, h1, h2, h3, h4, h5, runTrainer, h6] at h
    · intro tk' rows' htk hrows hok
      exact absurd hok (by simp [runPipeline, h1, h2, h3, h4, h5, runTrainer, h6])

/-! ### The claims -/

/-- C1: for every batch carrying both required columns, the tokenization
transform applies the loaded tokenizer to the batch's `instruction`
column as input texts with the batch's `response` column as the target
texts, truncation enabled; and the transform is applied over the dataset
in consecutive batch groups, whose per-group results the map
concatenates. -/
theorem claim_C1_tokenize_applies_tokenizer (tk : Tokenizer) (batch : Batch)
    (texts targets : List (Option String))
    (hti : batch.get "instruction" = some texts)
    (htr : batch.get "response" = some targets) :
    tokenize tk batch = tk.call texts targets true ∧
    ∀ (n : Nat) (rows : List Record) (out : List TokenizedExample),
      mapBatched tk n rows = .ok out →
      ∃ encs, exceptMapM (fun c => tokenize tk (toBatch (datasetColumns rows) c))
          (chunkList n rows) = .ok encs ∧
        out = (encs.map encodingRows).flatten := by
  constructor
  · simp only [tokenize, hti, htr]
  · intro n rows out h
    rcases hmm : exceptMapM (fun c => tokenize tk (toBatch (datasetColumns rows) c))
        (chunkList n rows) with e | encs
    · simp [mapBatched, hmm, exceptBind_error] at h
    · refine ⟨encs, rfl, ?_⟩
      simp only [mapBatched, hmm, exceptBind_ok] at h
      exact (Except.ok.inj h).symm

/-- Witness for C1 on a concrete batch and tokenizer. -/
theorem claim_C1_witness :
    batchW.get "instruction" = some [some "add 2 and 3"] ∧
    batchW.get "response" = some [some "5"] ∧
    tokenize tkW batchW = tkW.call [some "add 2 and 3"] [some "5"] true :=
  ⟨rfl, rfl, (claim_C1_tokenize_applies_tokenizer tkW batchW _ _ rfl rfl).1⟩

/-- C2: on any dataset whose records all have both `instruction` and
`response`, the tokenization stage succeeds and produces exactly one
tokenized example per input record. -/
theorem claim_C2_cardinality (tk : Tokenizer) (n : Nat) (rows : List Record)
    (hall : ∀ r ∈ rows,
      (r.getField "instruction").isSome ∧ (r.getField "response").isSome) :
    ∃ out, mapBatched tk n rows = .ok out ∧ out.length = rows.length :=
  ⟨rows.map (tokenizedForm tk), mapBatched_ok tk n hall, by simp⟩

/-- Witness for C2 on a concrete four-record dataset. -/
theorem claim_C2_witness :
    (∀ r ∈ rowsW,
      (r.getField "instruction").isSome ∧ (r.getField "response").isSome) ∧
    ∃ out, mapBatched tkW 0 rowsW = .ok out ∧ out.length = rowsW.length :=
  ⟨by decide, claim_C2_cardinality tkW 0 rowsW (by decide)⟩

/-- C3: the adapter configuration is the constant record with rank 16,
alpha 32, targets `q_proj` and `v_proj`, dropout 0.05, bias "none" and
task type CAUSAL_LM; adapter injection installs exactly this
configuration, training never changes it, and the configuration stored
in the saved artifact of any successful run is still this one. -/
theorem claim_C3_adapter_config :
    lora_config = ⟨16, 32, ["q_proj", "v_proj"], 0.05, "none", "CAUSAL_LM"⟩ ∧
    (∀ m p, get_peft_model m lora_config = .ok p → p.config = lora_config) ∧
    (∀ p k, (trainedModel p k).config = p.config) ∧
    (∀ env art, (runPipeline env).outcome = .ok art → art.config = lora_config) := by
  refine ⟨rfl, ?_, fun p k => rfl, ?_⟩
  · intro m p h
    rw [get_peft_model_ok h]
  · intro env art h
    exact ((runPipeline_shape env).2.2.1 art h).2

/-- Witness for C3 on a concrete base model. -/
theorem claim_C3_witness :
    get_peft_model mW lora_config = .ok pmW ∧ pmW.config = lora_config ∧
    (trainedModel pmW 3).config = lora_config := by
  have h := claim_C3_adapter_config
  exact ⟨rfl, h.2.1 mW pmW rfl, (h.2.2.1 pmW 3).trans (h.2.1 mW pmW rfl)⟩

/-- C4: the training configuration is the constant record with output
directory `./results`, per-device batch size 2, 3 epochs, learning rate
2e-4, fp16 enabled, logging every 10 steps and saving every 500 steps;
the trainer consumes exactly these epoch and batch-size values. -/
theorem claim_C4_training_config :
    training_args = ⟨"./results", 2, 3, 2e-4, true, 10, 500⟩ ∧
    ∀ p data, runTrainer p training_args data none =
      .ok (trainedModel p (totalSteps 3 2 data), totalSteps 3 2 data) :=
  ⟨rfl, fun _ _ => rfl⟩

/-- C5: after adapter injection into a base model with at least one
parameter, the base weights are marked non-trainable, the trainable
parameters are exactly the injected adapter parameters, the trainable
count is strictly below the total count, and all of this persists after
any number of training steps. -/
theorem claim_C5_frozen_base (m : Model) (cfg : LoraConfig) (p : PeftModel)
    (h : get_peft_model m cfg = .ok p) (hbase : 0 < m.baseParamCount) :
    p.baseTrainable = false ∧
    p.trainableParams = p.adapterParamCount ∧
    p.trainableParams < p.totalParams ∧
    ∀ k, (trainedModel p k).baseTrainable = false ∧
      (trainedModel p k).trainableParams < (trainedModel p k).totalParams := by
  have hp := get_peft_model_ok h
  subst hp
  refine ⟨rfl, ?_, ?_, ?_⟩
  · simp [PeftModel.trainableParams]
  · simp only [PeftModel.trainableParams, PeftModel.totalParams]
    simp only [Bool.false_eq_true, if_false, Nat.zero_add]
    omega
  · intro k
    refine ⟨rfl, ?_⟩
    simp only [trainedModel, PeftModel.trainableParams, PeftModel.totalParams]
    simp only [Bool.false_eq_true, if_false, Nat.zero_add]
    omega

/-- Witness for C5 on a concrete base model with 100 base parameters. -/
theorem claim_C5_witness :
    get_peft_model mW lora_config = .ok pmW ∧ 0 < mW.baseParamCount ∧
    (pmW.baseTrainable = false ∧
      pmW.trainableParams = pmW.adapterParamCount ∧
      pmW.trainableParams < pmW.totalParams ∧
      ∀ k, (trainedModel pmW k).baseTrainable = false ∧
        (trainedModel pmW k).trainableParams < (trainedModel pmW k).totalParams) :=
  ⟨rfl, by decide, claim_C5_frozen_base mW lora_config pmW rfl (by decide)⟩

/-- C6: on a dataset containing a record without `instruction` or
without `response`, the tokenization stage fails with an error rather
than producing an empty example, and a pipeline run over such a dataset
never reaches a successful save: the process ends in the failure
outcome. -/
theorem claim_C6_missing_field (tk : Tokenizer) (n : Nat) (env : Env)
    (rows : List Record) (r : Record) (hrmem : r ∈ rows)
    (hmiss : r.getField "instruction" = none ∨ r.getField "response" = none)
    (henvtk : env.fetchTokenizer = .ok tk)
    (henvrows : env.loadRows = .ok rows) :
    (∃ e, mapBatched tk n rows = .error e) ∧
    ¬∃ art, (runPipeline env).outcome = .ok art := by
  refine ⟨mapBatched_error_of_missing tk n hrmem hmiss, ?_⟩
  intro hok
  rcases (runPipeline_shape env).2.2.2 tk rows henvtk henvrows hok with ⟨out, hout⟩
  rcases mapBatched_error_of_missing tk 999 hrmem hmiss with ⟨e, he⟩
  rw [he] at hout
  exact Except.noConfusion hout

/-- Witness for C6 on a concrete dataset whose second record lacks
`response`. -/
theorem claim_C6_witness :
    (⟨[("instruction", "orphan")]⟩ : Record) ∈ rowsBad ∧
    (∃ e, mapBatched tkW 999 rowsBad = .error e) ∧
    ¬∃ art, (runPipeline envBad).outcome = .ok art := by
  have h := claim_C6_missing_field tkW 999 envBad rowsBad
    ⟨[("instruction", "orphan")]⟩ (by decide) (Or.inr (by decide)) rfl rfl
  exact ⟨by decide, h.1, h.2⟩

/-- C7: every run's completed-stage trace is an initial segment of the
fixed linear stage sequence; the run completes the whole sequence
exactly when it succeeds; a successful run saves to `./adapter_model`
(which, the trace being linear, happens only after the training stage);
and the only terminal states are the successful save and a propagated
failure. -/
theorem claim_C7_linear_pipeline (env : Env) :
    (∃ k, (runPipeline env).trace = fullTrace.take k) ∧
    ((∃ art, (runPipeline env).outcome = .ok art) ↔
      (runPipeline env).trace = fullTrace) ∧
    (∀ art, (runPipeline env).outcome = .ok art → art.dir = "./adapter_model") ∧
    ((∃ art, (runPipeline env).outcome = .ok art) ∨
      (∃ e, (runPipeline env).outcome = .error e)) := by
  have h := runPipeline_shape env
  refine ⟨h.1, h.2.1, fun art ha => (h.2.2.1 art ha).1, ?_⟩
  rcases hE : (runPipeline env).outcome with e | a
  · exact Or.inr ⟨e, rfl⟩
  · exact Or.inl ⟨a, rfl⟩

/-- Witness for C7 on a concrete all-successful environment. -/
theorem claim_C7_witness :
    (runPipeline envW).trace = fullTrace ∧
    ∃ k, (runPipeline envW).trace = fullTrace.take k := by
  have h := claim_C7_linear_pipeline envW
  exact ⟨h.2.1.mp ⟨_, rfl⟩, h.1⟩

/-- C8: on a tokenized split of 4 records, one epoch performs exactly
`ceil(4 / b)` optimization steps for batch size `b`; the mini-batches of
an epoch have size at most `b` and concatenate back to the whole split
(one full pass); and the trainer reports exactly `totalSteps` steps of
its arguments' epoch count and batch size. -/
theorem claim_C8_step_count (b : Nat) (data : List TokenizedExample)
    (hb : 0 < b) (hdata : data.length = 4) :
    totalSteps 1 b data = (4 + b - 1) / b ∧
    (epochBatches b data).flatten = data ∧
    (∀ c ∈ epochBatches b data, c.length ≤ b) ∧
    ∀ p args, runTrainer p args data none =
      .ok (trainedModel p
            (totalSteps args.num_train_epochs args.per_device_train_batch_size data),
          totalSteps args.num_train_epochs args.per_device_train_batch_size data) := by
  have hb1 : b - 1 + 1 = b := by omega
  refine ⟨?_, ?_, ?_, fun p args => rfl⟩
  · unfold totalSteps stepsPerEpoch epochBatches
    rw [chunkList_length, hdata, hb1]
    have h4 : 4 + (b - 1) = 4 + b - 1 := by omega
    rw [h4, Nat.one_mul]
  · exact chunkList_flatten _ _
  · intro c hc
    have := chunkList_mem_le (b - 1) data c hc
    omega

/-- Witness for C8: with batch size 2 and the concrete four-example
split, training one epoch takes exactly 2 steps. -/
theorem claim_C8_witness :
    0 < 2 ∧ dataW.length = 4 ∧
    totalSteps 1 2 dataW = (4 + 2 - 1) / 2 ∧
    totalSteps 1 2 dataW = 2 ∧
    (epochBatches 2 dataW).flatten = dataW := by
  have h := claim_C8_step_count 2 dataW (by decide) (by decide)
  exact ⟨by decide, by decide, h.1, h.1.trans (by decide), h.2.1⟩

/-- C9: on a dataset whose records all have both fields, the
tokenization stage replaces every record by its tokenized form — the
`instruction` text becomes the input-id sequence and the `response`
text becomes the label sequence, and the tokenized examples consist of
token-id sequences only. -/
theorem claim_C9_records_replaced (tk : Tokenizer) (n : Nat) (rows : List Record)
    (hall : ∀ r ∈ rows,
      (r.getField "instruction").isSome ∧ (r.getField "response").isSome) :
    mapBatched tk n rows = .ok (rows.map (tokenizedForm tk)) ∧
    ∀ r ∈ rows, ∀ instr resp, r.getField "instruction" = some instr →
      r.getField "response" = some resp →
      tokenizedForm tk r = ⟨tk.encode true instr, tk.encode true resp⟩ := by
  refine ⟨mapBatched_ok tk n hall, ?_⟩
  intro r _ instr resp hinstr hresp
  simp [tokenizedForm, hinstr, hresp]

/-- Witness for C9 on the concrete four-record dataset. -/
theorem claim_C9_witness :
    (∀ r ∈ rowsW,
      (r.getField "instruction").isSome ∧ (r.getField "response").isSome) ∧
    mapBatched tkW 999 rowsW = .ok (rowsW.map (tokenizedForm tkW)) :=
  ⟨by decide, (claim_C9_records_replaced tkW 999 rowsW (by decide)).1⟩

/-- C10: the tokenization transform reads only the `instruction` and
`response` columns — two batches agreeing on those two columns get
identical output from `tokenize`, whatever their other columns hold. -/
theorem claim_C10_depends_only_on_fields (tk : Tokenizer) (b1 b2 : Batch)
    (hi : b1.get "instruction" = b2.get "instruction")
    (hr : b1.get "response" = b2.get "response") :
    tokenize tk b1 = tokenize tk b2 := by
  simp only [tokenize, hi, hr]

/-- Witness for C10 on two distinct concrete batches differing only in
their `id` column. -/
theorem claim_C10_witness :
    batchX ≠ batchY ∧
    batchX.get "instruction" = batchY.get "instruction" ∧
    batchX.get "response" = batchY.get "response" ∧
    tokenize tkW batchX = tokenize tkW batchY :=
  ⟨by decide, rfl, rfl, claim_C10_depends_only_on_fields tkW batchX batchY rfl rfl⟩

end Llama32
